import Mathlib

set_option maxHeartbeats 1000000

/-! Verification development for the citation extractor in
    src/parse_citations.py: an ElementTree-style XML model, the extraction
    logic embedded function by function, a model of the JSON output encoding,
    and theorems settling the specification's claims. -/

/-- ASCII model of the whitespace characters stripped by Python str.strip(). -/
def isPySpace (c : Char) : Bool :=
  c == ' ' || c == '\t' || c == '\n' || c == '\r' || c == '\x0b' || c == '\x0c'

/-- Strip leading and trailing whitespace from a character list (str.strip()). -/
def stripChars (l : List Char) : List Char :=
  ((l.dropWhile isPySpace).reverse.dropWhile isPySpace).reverse

/-- Python str.strip() on strings. -/
def pyStrip (s : String) : String := String.mk (stripChars s.data)

/-- Digit tail of Python int() parsing: further digits, with single underscores
    allowed between digits, accumulating the decimal value. -/
def digitsRest (acc : Nat) : List Char → Option Nat
  | [] => some acc
  | '_' :: c :: cs => if c.isDigit then digitsRest (acc * 10 + (c.toNat - 48)) cs else none
  | '_' :: [] => none
  | c :: cs => if c.isDigit then digitsRest (acc * 10 + (c.toNat - 48)) cs else none

/-- Start of the digit part of Python int(): the first char must be a digit. -/
def digitsStart : List Char → Option Nat
  | [] => none
  | c :: cs => if c.isDigit then digitsRest (c.toNat - 48) cs else none

/-- Model of Python int(s) in base 10 over ASCII digits: surrounding whitespace
    allowed, an optional sign, then a non-empty digit sequence with single
    underscores permitted between digits. -/
def pyInt (s : String) : Option Int :=
  match stripChars s.data with
  | [] => none
  | c :: rest =>
    if c = '+' then (digitsStart rest).map (fun n => (n : Int))
    else if c = '-' then (digitsStart rest).map (fun n => -(n : Int))
    else (digitsStart (c :: rest)).map (fun n => (n : Int))

/-- Word character for the regex word boundary (ASCII model of backslash-b). -/
def isWordChar (c : Char) : Bool := c.isAlphanum || c == '_'

/-- Whether the position just after a match is a word boundary. -/
def boundaryAfter : List Char → Bool
  | [] => true
  | c :: _ => !isWordChar c

/-- Leftmost match of the year pattern (19|20) followed by two digits, between
    word boundaries: the model of the re.search call in the source. Returns the
    four matched characters. -/
def yearScan (prevWord : Bool) : List Char → Option (List Char)
  | c1 :: c2 :: c3 :: c4 :: rest =>
    if !prevWord && ((c1 == '1' && c2 == '9') || (c1 == '2' && c2 == '0'))
        && c3.isDigit && c4.isDigit && boundaryAfter rest
    then some [c1, c2, c3, c4]
    else yearScan (isWordChar c1) (c2 :: c3 :: c4 :: rest)
  | _ => none

/-- int(year_match.group()) in the source: parse the matched year text. -/
def yearFromText (t : String) : Option Int :=
  (yearScan false t.data).bind (fun quad => pyInt (String.mk quad))

mutual
/-- ElementTree-style XML element: tag, attributes, text before the first
    child, child elements, and the tail text that follows the element inside
    its parent. -/
inductive XmlElem where
  | mk (tag : String) (attrs : List (String × String)) (text : Option String)
      (children : XmlForest) (tail : Option String)

/-- The ordered children of an element. -/
inductive XmlForest where
  | nil
  | cons (head : XmlElem) (tail : XmlForest)
end

def XmlElem.tag : XmlElem → String
  | .mk t _ _ _ _ => t

def XmlElem.attrs : XmlElem → List (String × String)
  | .mk _ a _ _ _ => a

def XmlElem.text : XmlElem → Option String
  | .mk _ _ x _ _ => x

def XmlElem.children : XmlElem → XmlForest
  | .mk _ _ _ c _ => c

def XmlElem.tail : XmlElem → Option String
  | .mk _ _ _ _ tl => tl

def XmlForest.toList : XmlForest → List XmlElem
  | .nil => []
  | .cons e es => e :: es.toList

def forestOf : List XmlElem → XmlForest
  | [] => .nil
  | e :: es => .cons e (forestOf es)

mutual
/-- Strict descendants of an element in document (preorder) order: the node
    set searched by ElementTree paths starting with .// . -/
def XmlElem.descendants : XmlElem → List XmlElem
  | .mk _ _ _ cs _ => XmlForest.preorder cs

/-- Preorder traversal of a forest together with all descendants. -/
def XmlForest.preorder : XmlForest → List XmlElem
  | .nil => []
  | .cons e es => e :: (XmlElem.descendants e ++ XmlForest.preorder es)
end

mutual
/-- Element.itertext() joined to one string: own text, then every child
    recursively followed by its tail. -/
def XmlElem.itertext : XmlElem → String
  | .mk _ _ x cs _ => x.getD "" ++ XmlForest.itertextF cs

/-- Concatenated text of sibling elements: each one's itertext then tail. -/
def XmlForest.itertextF : XmlForest → String
  | .nil => ""
  | .cons e es => XmlElem.itertext e ++ e.tail.getD "" ++ XmlForest.itertextF es
end

/-- The TEI namespace wrapper that ElementTree puts on resolved tags. -/
def teiNS : String := "\x7bhttp://www.tei-c.org/ns/1.0\x7d"

/-- A namespaced TEI tag, as the source's ns dictionary resolves tei: paths. -/
def tei (s : String) : String := teiNS ++ s

def tagIs (t : String) (e : XmlElem) : Bool := e.tag == tei t

def attrGet (e : XmlElem) (k : String) : Option String :=
  (e.attrs.find? (fun p => p.1 == k)).map (fun p => p.2)

def attrIs (k v : String) (e : XmlElem) : Bool := attrGet e k == some v

/-- The title[@type="main"] path predicate. -/
def isMainTitle (e : XmlElem) : Bool := tagIs "title" e && attrIs "type" "main" e

/-- The title[@level=...] path predicates. -/
def isLevelTitle (lv : String) (e : XmlElem) : Bool :=
  tagIs "title" e && attrIs "level" lv e

/-- findall('.//...') with a node predicate: all descendants that match. -/
def findAllDesc (p : XmlElem → Bool) (e : XmlElem) : List XmlElem :=
  e.descendants.filter p

/-- find('.//...') with a node predicate: the first descendant that matches. -/
def findDesc (p : XmlElem → Bool) (e : XmlElem) : Option XmlElem :=
  (findAllDesc p e).head?

/-- findall('tag') on direct children. -/
def findAllChild (p : XmlElem → Bool) (e : XmlElem) : List XmlElem :=
  e.children.toList.filter p

/-- find('tag') on direct children. -/
def findChild (p : XmlElem → Bool) (e : XmlElem) : Option XmlElem :=
  (findAllChild p e).head?

/-- extract_text from the source: the element's own text, stripped, when the
    element exists and its text is truthy. -/
def extract_text : Option XmlElem → Option String
  | some e =>
    match e.text with
    | some t => if t != "" then some (pyStrip t) else none
    | none => none
  | none => none

/-- extract_all_text from the source: all text content of the element and its
    children via itertext, stripped; empty for a missing element. -/
def extract_all_text : Option XmlElem → String
  | some e => pyStrip e.itertext
  | none => ""

/-- Python truthiness of an optional string: present and non-empty. -/
def truthy : Option String → Bool
  | some s => s != ""
  | none => false

/-- The output record shape built for every biblStruct fragment. -/
structure CitationRecord where
  title : Option String
  authors : List String
  proceedings : Option String
  year : Option Int
deriving DecidableEq

/-- Title lookup inside the analytic section: a main-typed title first, else an
    article-level title; the found element's full descendant text. -/
def titleFromAnalytic (a : XmlElem) : Option String :=
  let titleElem :=
    match findDesc isMainTitle a with
    | some e => some e
    | none => findDesc (isLevelTitle "a") a
  titleElem.map (fun e => extract_all_text (some e))

/-- The analytic part of title resolution: nothing without an analytic
    section. -/
def analyticTitleOf (bs : XmlElem) : Option String :=
  match findDesc (tagIs "analytic") bs with
  | some a => titleFromAnalytic a
  | none => none

/-- Title resolution for one biblStruct: the analytic result first; the
    monograph section is consulted exactly when that result is missing or the
    empty string (the source's `if not citation['title']`). -/
def resolveTitle (bs : XmlElem) : Option String :=
  if truthy (analyticTitleOf bs) then analyticTitleOf bs
  else
    match findDesc (tagIs "monogr") bs with
    | none => analyticTitleOf bs
    | some m =>
      match
        (match findDesc isMainTitle m with
         | some e => some e
         | none => findDesc (isLevelTitle "m") m)
      with
      | none => analyticTitleOf bs
      | some e => some (extract_all_text (some e))

/-- The truthy forename texts of a persName element, in document order. -/
def forenamesOf (p : XmlElem) : List String :=
  (findAllChild (tagIs "forename") p).filterMap (fun f =>
    match extract_text (some f) with
    | some t => if t != "" then some t else none
    | none => none)

def surnameOf (p : XmlElem) : Option String :=
  extract_text (findChild (tagIs "surname") p)

/-- Display name built from one persName element, as in the source: forenames
    joined by spaces plus surname, or surname alone, or nothing. -/
def nameFromPers (p : XmlElem) : Option String :=
  let forenames := forenamesOf p
  match surnameOf p with
  | some s =>
    if forenames != ([] : List String) && s != "" then
      some (String.intercalate " " forenames ++ " " ++ s)
    else if s != "" then some s
    else none
  | none => none

/-- Contribution of one author element: its first persName descendant's name. -/
def authorName (author : XmlElem) : Option String :=
  (findDesc (tagIs "persName") author).bind nameFromPers

/-- The author loop of the source: append each resolved name in order. -/
def authorsLoop (acc : List String) : List XmlElem → List String
  | [] => acc
  | a :: rest =>
    match authorName a with
    | some n => authorsLoop (acc ++ [n]) rest
    | none => authorsLoop acc rest

/-- Authors of the analytic section, in document order. -/
def resolveAuthors (a : XmlElem) : List String :=
  authorsLoop [] (findAllDesc (tagIs "author") a)

/-- Authors of a biblStruct: enumerated only when an analytic section exists. -/
def resolveAuthorsOf (bs : XmlElem) : List String :=
  match findDesc (tagIs "analytic") bs with
  | some a => resolveAuthors a
  | none => []

/-- The meeting branch of venue resolution: the meeting child's trimmed text,
    kept only when truthy. -/
def venueMeeting (m : XmlElem) : Option String :=
  match findChild (tagIs "meeting") m with
  | some me =>
    match extract_text (some me) with
    | some mt => if mt != "" then some mt else none
    | none => none
  | none => none

/-- Venue resolution from the monogr section, given the already-resolved
    title: meeting text, else journal-level title, else monograph-level title
    when non-empty and different from the title. -/
def resolveVenue (m : XmlElem) (title : Option String) : Option String :=
  if truthy (venueMeeting m) then venueMeeting m
  else
    match findDesc (isLevelTitle "j") m with
    | some j => some (extract_all_text (some j))
    | none =>
      match findDesc (isLevelTitle "m") m with
      | some pe =>
        if extract_all_text (some pe) != "" && title != some (extract_all_text (some pe))
        then some (extract_all_text (some pe))
        else venueMeeting m
      | none => venueMeeting m

/-- The when-attribute branch of year resolution: int of the attribute's first
    four characters, tried only when the attribute is truthy. -/
def yearWhenAttr (d : XmlElem) : Option Int :=
  match attrGet d "when" with
  | some a => if a != "" then pyInt (String.mk (a.data.take 4)) else none
  | none => none

/-- The text branch of year resolution: regex year search over the element's
    truthy stripped text. -/
def yearTextOf (d : XmlElem) : Option Int :=
  match extract_text (some d) with
  | some t => if t != "" then yearFromText t else none
  | none => none

/-- Year from the chosen date element: when attribute first, text fallback. -/
def resolveYearFromDate (d : XmlElem) : Option Int :=
  match yearWhenAttr d with
  | some y => some y
  | none => yearTextOf d

/-- Date element selection inside imprint: a published-typed date preferred,
    else any date element. -/
def dateElemOf (imp : XmlElem) : Option XmlElem :=
  match findDesc (fun e => tagIs "date" e && attrIs "type" "published" e) imp with
  | some d => some d
  | none => findDesc (tagIs "date") imp

/-- Year resolution for one biblStruct. -/
def resolveYear (bs : XmlElem) : Option Int :=
  match findDesc (tagIs "imprint") bs with
  | some imp =>
    match dateElemOf imp with
    | some d => resolveYearFromDate d
    | none => none
  | none => none

/-- One loop iteration of parse_citations_from_xml: build the record for one
    biblStruct and apply the emission test (truthy title or non-empty
    authors). -/
def processBiblStruct (bs : XmlElem) : Option CitationRecord :=
  let title := resolveTitle bs
  let authors := resolveAuthorsOf bs
  let proceedings :=
    match findDesc (tagIs "monogr") bs with
    | some m => resolveVenue m title
    | none => none
  let year := resolveYear bs
  if truthy title || authors != ([] : List String) then
    some { title := title, authors := authors, proceedings := proceedings, year := year }
  else none

/-- The fragment loop with the source's try/except placement: the whole for
    loop sits inside a single except handler, so the first fragment whose
    processing raises ends the loop and the records accumulated so far are
    what the function returns. -/
def runFragments (process : XmlElem → Except String (Option CitationRecord)) :
    List XmlElem → List CitationRecord
  | [] => []
  | f :: fs =>
    match process f with
    | .error _ => []
    | .ok none => runFragments process fs
    | .ok (some r) => r :: runFragments process fs

/-- root.findall('.//tei:biblStruct'): every fragment of the document. -/
def findBiblStructs (root : XmlElem) : List XmlElem :=
  findAllDesc (tagIs "biblStruct") root

/-- parse_citations_from_xml on an already-parsed document root. -/
def parse_citations_from_xml (root : XmlElem) : List CitationRecord :=
  runFragments (fun bs => Except.ok (processBiblStruct bs)) (findBiblStructs root)

/-- The record an error-free fragment contributes, if any. -/
def okRecord : Except String (Option CitationRecord) → Option CitationRecord
  | .ok r => r
  | .error _ => none

/-- First successful rule of an ordered rule chain. -/
def firstSome {α : Type} : List (Option α) → Option α
  | [] => none
  | some s :: _ => some s
  | none :: rest => firstSome rest

/-- Venue rule (a) as the spec words it: the meeting element's trimmed text. -/
def venueRuleA (m : XmlElem) : Option String :=
  match extract_text (findChild (tagIs "meeting") m) with
  | some s => if s != "" then some s else none
  | none => none

/-- Venue rule (b) as the spec words it: a journal-level title via
    full-descendant-text extraction. -/
def venueRuleB (m : XmlElem) : Option String :=
  (findDesc (isLevelTitle "j") m).map (fun j => extract_all_text (some j))

/-- Venue rule (c) as the spec words it: a monograph-level title, only when its
    non-empty text differs from the already-resolved title. -/
def venueRuleC (m : XmlElem) (title : Option String) : Option String :=
  (findDesc (isLevelTitle "m") m).bind (fun pe =>
    let s := extract_all_text (some pe)
    if s != "" && title != some s then some s else none)

/-- The spec's ordered venue rule chain: first successful rule wins, no
    further rules tried after a match. -/
def venueRules (m : XmlElem) (title : Option String) : Option String :=
  firstSome [venueRuleA m, venueRuleB m, venueRuleC m title]

/-- The spec's title resolution exactly as claimed: one four-step ordered
    fallback over title elements, stopping at the first element found, whose
    full descendant text is the title. -/
def titleRulesAsStated (bs : XmlElem) : Option String :=
  (firstSome
    [ (findDesc (tagIs "analytic") bs).bind (findDesc isMainTitle)
    , (findDesc (tagIs "analytic") bs).bind (findDesc (isLevelTitle "a"))
    , (findDesc (tagIs "monogr") bs).bind (findDesc isMainTitle)
    , (findDesc (tagIs "monogr") bs).bind (findDesc (isLevelTitle "m")) ]).map
    (fun e => extract_all_text (some e))

/-- The amended title resolution: the two analytic rules stop at the first
    element found, but the two monograph rules are consulted whenever the
    analytic result is absent or has empty trimmed text. -/
def specAnalyticTitle (bs : XmlElem) : Option String :=
  (firstSome
    [ (findDesc (tagIs "analytic") bs).bind (findDesc isMainTitle)
    , (findDesc (tagIs "analytic") bs).bind (findDesc (isLevelTitle "a")) ]).map
    (fun e => extract_all_text (some e))

def titleRulesAmended (bs : XmlElem) : Option String :=
  if truthy (specAnalyticTitle bs) then specAnalyticTitle bs
  else
    match
      (firstSome
        [ (findDesc (tagIs "monogr") bs).bind (findDesc isMainTitle)
        , (findDesc (tagIs "monogr") bs).bind (findDesc (isLevelTitle "m")) ]).map
        (fun e => extract_all_text (some e))
    with
    | some s => some s
    | none => specAnalyticTitle bs

/-- The spec's year resolution: parse the leading four characters of the when
    attribute as an integer; only when that is absent or unparsable, fall back
    to the year pattern in the element's visible text. -/
def yearRules (d : XmlElem) : Option Int :=
  match attrGet d "when" with
  | some a =>
    match pyInt (String.mk (a.data.take 4)) with
    | some y => some y
    | none =>
      match extract_text (some d) with
      | some t => yearFromText t
      | none => none
  | none =>
    match extract_text (some d) with
    | some t => yearFromText t
    | none => none

/-- JSON values as the serializer produces them (numbers restricted to the
    integers the program emits). -/
inductive JValue where
  | jnull
  | jint (i : Int)
  | jstr (s : String)
  | jarr (items : List JValue)
  | jobj (fields : List (String × JValue))

/-- Lowercase hex digit, as Python's backslash-u escapes print. -/
def hexDig (n : Nat) : Char := if n < 10 then Char.ofNat (48 + n) else Char.ofNat (87 + n)

/-- Escape one character the way json.dump with ensure_ascii=False does:
    quote, backslash and control characters escaped, the rest verbatim. -/
def escCharL (c : Char) : List Char :=
  if c = '"' then ['\\', '"']
  else if c = '\\' then ['\\', '\\']
  else if c = '\x08' then ['\\', 'b']
  else if c = '\x0c' then ['\\', 'f']
  else if c = '\n' then ['\\', 'n']
  else if c = '\x0d' then ['\\', 'r']
  else if c = '\t' then ['\\', 't']
  else if c.toNat < 32 then ['\\', 'u', '0', '0', hexDig (c.toNat / 16), hexDig (c.toNat % 16)]
  else [c]

/-- A JSON string literal for s. -/
def encodeStrL (s : String) : List Char := '"' :: (s.data.flatMap escCharL ++ ['"'])

/-- Decimal digits of a number, most significant first; empty for zero. -/
def natChars : Nat → List Char
  | 0 => []
  | n + 1 => natChars ((n + 1) / 10) ++ [Char.ofNat (48 + (n + 1) % 10)]
  decreasing_by exact Nat.div_lt_self (Nat.succ_pos n) (by norm_num)

/-- Decimal representation of a natural number. -/
def natCharsFull (n : Nat) : List Char := if n = 0 then ['0'] else natChars n

/-- Decimal representation of an integer, as Python prints int values. -/
def intChars (i : Int) : List Char :=
  if i < 0 then '-' :: natCharsFull (-i).toNat else natCharsFull i.toNat

/-- Newline plus 2·level spaces: the separator json.dump(indent=2) writes. -/
def nlIndent (lvl : Nat) : List Char := '\n' :: List.replicate (2 * lvl) ' '

mutual
/-- json.dump with indent=2 and ensure_ascii=False at a nesting level. -/
def dumpJ (lvl : Nat) : JValue → List Char
  | .jnull => ['n', 'u', 'l', 'l']
  | .jint i => intChars i
  | .jstr s => encodeStrL s
  | .jarr [] => ['[', ']']
  | .jarr (x :: xs) =>
    '[' :: (nlIndent (lvl + 1) ++ dumpJ (lvl + 1) x ++ dumpItems (lvl + 1) xs
      ++ nlIndent lvl ++ [']'])
  | .jobj [] => ['\x7b', '\x7d']
  | .jobj ((k, v) :: fs) =>
    '\x7b' :: (nlIndent (lvl + 1) ++ dumpField (lvl + 1) k v ++ dumpFields (lvl + 1) fs
      ++ nlIndent lvl ++ ['\x7d'])

/-- The remaining array items, each preceded by the item separator. -/
def dumpItems (lvl : Nat) : List JValue → List Char
  | [] => []
  | x :: xs => ',' :: (nlIndent lvl ++ dumpJ lvl x ++ dumpItems lvl xs)

/-- One key/value pair with the key separator of indented output. -/
def dumpField (lvl : Nat) (k : String) (v : JValue) : List Char :=
  encodeStrL k ++ ':' :: ' ' :: dumpJ lvl v

/-- The remaining object fields, each preceded by the item separator. -/
def dumpFields (lvl : Nat) : List (String × JValue) → List Char
  | [] => []
  | (k, v) :: fs => ',' :: (nlIndent lvl ++ dumpField lvl k v ++ dumpFields lvl fs)
end

def jOfOptStr : Option String → JValue
  | some s => .jstr s
  | none => .jnull

def jOfOptInt : Option Int → JValue
  | some i => .jint i
  | none => .jnull

/-- The JSON object json.dump writes for one citation dict: keys in insertion
    order title, authors, proceedings, year. -/
def jsonOfRecord (r : CitationRecord) : JValue :=
  .jobj [("title", jOfOptStr r.title), ("authors", .jarr (r.authors.map JValue.jstr)),
    ("proceedings", jOfOptStr r.proceedings), ("year", jOfOptInt r.year)]

/-- The exact file contents main() writes for a list of citations. -/
def dumps (rs : List CitationRecord) : String :=
  String.mk (dumpJ 0 (.jarr (rs.map jsonOfRecord)))

def isJsonWs (c : Char) : Bool := c == ' ' || c == '\t' || c == '\n' || c == '\r'

def skipWs (l : List Char) : List Char := l.dropWhile isJsonWs

def hexVal (c : Char) : Option Nat :=
  if 48 ≤ c.toNat ∧ c.toNat ≤ 57 then some (c.toNat - 48)
  else if 97 ≤ c.toNat ∧ c.toNat ≤ 102 then some (c.toNat - 87)
  else if 65 ≤ c.toNat ∧ c.toNat ≤ 70 then some (c.toNat - 55)
  else none

def unescapeChar (e : Char) : Option Char :=
  if e = '"' then some '"'
  else if e = '\\' then some '\\'
  else if e = '/' then some '/'
  else if e = 'b' then some '\x08'
  else if e = 'f' then some '\x0c'
  else if e = 'n' then some '\n'
  else if e = 'r' then some '\x0d'
  else if e = 't' then some '\t'
  else none

/-- Body of a JSON string literal after the opening quote: the decoded
    characters and the input after the closing quote. -/
def parseStringBody : List Char → Option (List Char × List Char)
  | [] => none
  | c :: rest =>
    if c = '"' then some ([], rest)
    else if c = '\\' then
      match rest with
      | [] => none
      | e :: rest2 =>
        if e = 'u' then
          match rest2 with
          | h1 :: h2 :: h3 :: h4 :: rest3 =>
            match hexVal h1, hexVal h2, hexVal h3, hexVal h4, parseStringBody rest3 with
            | some a, some b, some c2, some d, some (cs, r) =>
              some (Char.ofNat (((a * 16 + b) * 16 + c2) * 16 + d) :: cs, r)
            | _, _, _, _, _ => none
          | _ => none
        else
          match unescapeChar e, parseStringBody rest2 with
          | some c2, some (cs, r) => some (c2 :: cs, r)
          | _, _ => none
    else
      match parseStringBody rest with
      | some (cs, r) => some (c :: cs, r)
      | none => none

def parseNatLoop (acc : Nat) : List Char → Nat × List Char
  | [] => (acc, [])
  | c :: rest =>
    if c.isDigit then parseNatLoop (acc * 10 + (c.toNat - 48)) rest else (acc, c :: rest)

def parseNatNum : List Char → Option (Nat × List Char)
  | [] => none
  | c :: rest => if c.isDigit then some (parseNatLoop (c.toNat - 48) rest) else none

def parseIntNum : List Char → Option (Int × List Char)
  | '-' :: rest => (parseNatNum rest).map (fun p => (-(p.1 : Int), p.2))
  | l => (parseNatNum l).map (fun p => ((p.1 : Int), p.2))

mutual
/-- Recursive-descent JSON value parser (fueled), whitespace-tolerant, with
    numbers restricted to the integer literals the serializer emits. -/
def parseJ : Nat → List Char → Option (JValue × List Char)
  | 0, _ => none
  | fuel + 1, input =>
    match skipWs input with
    | [] => none
    | c :: rest =>
      if c = '"' then
        (parseStringBody rest).map (fun p => (JValue.jstr (String.mk p.1), p.2))
      else if c = 'n' then
        match rest with
        | 'u' :: 'l' :: 'l' :: r => some (.jnull, r)
        | _ => none
      else if c = '[' then
        match skipWs rest with
        | ']' :: r2 => some (.jarr [], r2)
        | l2 =>
          match parseJ fuel l2 with
          | some (v, r2) =>
            match parseItemsJ fuel r2 with
            | some (vs, r3) => some (.jarr (v :: vs), r3)
            | none => none
          | none => none
      else if c = '\x7b' then
        match skipWs rest with
        | [] => none
        | c2 :: r2 =>
          if c2 = '\x7d' then some (.jobj [], r2)
          else
            match parseFieldJ fuel (c2 :: r2) with
            | some (f, r3) =>
              match parseFieldsJ fuel r3 with
              | some (fs, r4) => some (.jobj (f :: fs), r4)
              | none => none
            | none => none
      else if c = '-' || c.isDigit then
        (parseIntNum (c :: rest)).map (fun p => (JValue.jint p.1, p.2))
      else none

/-- Array items after the first: separator then value, until the bracket. -/
def parseItemsJ : Nat → List Char → Option (List JValue × List Char)
  | 0, _ => none
  | fuel + 1, input =>
    match skipWs input with
    | ']' :: r => some ([], r)
    | ',' :: r =>
      match parseJ fuel r with
      | some (v, r2) =>
        match parseItemsJ fuel r2 with
        | some (vs, r3) => some (v :: vs, r3)
        | none => none
      | none => none
    | _ => none

/-- One key/value pair of an object. -/
def parseFieldJ : Nat → List Char → Option ((String × JValue) × List Char)
  | 0, _ => none
  | fuel + 1, input =>
    match skipWs input with
    | c :: rest =>
      if c = '"' then
        match parseStringBody rest with
        | some (k, r2) =>
          match skipWs r2 with
          | ':' :: r3 =>
            match parseJ fuel r3 with
            | some (v, r4) => some ((String.mk k, v), r4)
            | none => none
          | _ => none
        | none => none
      else none
    | [] => none

/-- Object fields after the first: separator then pair, until the brace. -/
def parseFieldsJ : Nat → List Char → Option (List (String × JValue) × List Char)
  | 0, _ => none
  | fuel + 1, input =>
    match skipWs input with
    | c :: r =>
      if c = '\x7d' then some ([], r)
      else if c = ',' then
        match parseFieldJ fuel r with
        | some (f, r2) =>
          match parseFieldsJ fuel r2 with
          | some (fs, r3) => some (f :: fs, r3)
          | none => none
        | none => none
      else none
    | [] => none
end

/-- json.load on a whole string: one value, then only whitespace. -/
def loads (s : String) : Option JValue :=
  match parseJ (s.data.length + 1) s.data with
  | some (v, rest) => if skipWs rest = [] then some v else none
  | none => none

def jLookup (k : String) (fields : List (String × JValue)) : Option JValue :=
  (fields.find? (fun p => p.1 == k)).map (fun p => p.2)

def optStrOfJ : JValue → Option (Option String)
  | .jnull => some none
  | .jstr s => some (some s)
  | _ => none

def optIntOfJ : JValue → Option (Option Int)
  | .jnull => some none
  | .jint i => some (some i)
  | _ => none

def strOfJ : JValue → Option String
  | .jstr s => some s
  | _ => none

/-- All strings of a decoded JSON array, or nothing when one is not a string. -/
def decodeStrings : List JValue → Option (List String)
  | [] => some []
  | j :: js =>
    match strOfJ j, decodeStrings js with
    | some s, some ss => some (s :: ss)
    | _, _ => none

/-- Modelled from the spec: the field-for-field reading of one deserialized
    citation object (title, authors, proceedings, year). -/
def recordOfJson : JValue → Option CitationRecord
  | .jobj fields =>
    match jLookup "title" fields, jLookup "authors" fields,
        jLookup "proceedings" fields, jLookup "year" fields with
    | some tj, some (.jarr aj), some pj, some yj =>
      match optStrOfJ tj, decodeStrings aj, optStrOfJ pj, optIntOfJ yj with
      | some t, some au, some p, some y =>
        some { title := t, authors := au, proceedings := p, year := y }
      | _, _, _, _ => none
    | _, _, _, _ => none
  | _ => none

/-- Each record of the decoded array, read field for field. -/
def decodeRecords : List JValue → Option (List CitationRecord)
  | [] => some []
  | j :: js =>
    match recordOfJson j, decodeRecords js with
    | some r, some rs => some (r :: rs)
    | _, _ => none

/-- load_citations composed over the whole output file: deserialize, then read
    every record field for field. -/
def loadCitations (s : String) : Option (List CitationRecord) :=
  match loads s with
  | some (.jarr items) => decodeRecords items
  | _ => none

/-- Whether a character list does not begin with a digit, so that a decimal
    literal just before it ends there. -/
def headNotDigit : List Char → Bool
  | [] => true
  | c :: _ => !c.isDigit

mutual
/-- Parser fuel sufficient for one JSON value. -/
def jfuel : JValue → Nat
  | .jnull => 1
  | .jint _ => 1
  | .jstr _ => 1
  | .jarr vs => 1 + jfuelL vs
  | .jobj fs => 1 + jfuelF fs

/-- Parser fuel sufficient for the items of an array. -/
def jfuelL : List JValue → Nat
  | [] => 0
  | v :: vs => 1 + jfuel v + jfuelL vs

/-- Parser fuel sufficient for the fields of an object. -/
def jfuelF : List (String × JValue) → Nat
  | [] => 0
  | (_, v) :: fs => 2 + jfuel v + jfuelF fs
end

/-- Convenience constructor for a TEI-namespaced element without tail text. -/
def mkE (tag : String) (attrs : List (String × String)) (text : Option String)
    (children : List XmlElem) : XmlElem :=
  XmlElem.mk (tei tag) attrs text (forestOf children) none

/-- First fragment of the three-fragment scenario: resolves to title First. -/
def fragFirst : XmlElem :=
  mkE "biblStruct" [("n", "1")] none
    [mkE "analytic" [] none [mkE "title" [("type", "main")] (some "First") []]]

/-- Second fragment of the three-fragment scenario: the one whose processing
    raises. -/
def fragSecond : XmlElem :=
  mkE "biblStruct" [("n", "2")] none
    [mkE "analytic" [] none [mkE "title" [("type", "main")] (some "Second") []]]

/-- Third fragment of the three-fragment scenario: resolves to title Third. -/
def fragThird : XmlElem :=
  mkE "biblStruct" [("n", "3")] none
    [mkE "analytic" [] none [mkE "title" [("type", "main")] (some "Third") []]]

/-- A per-fragment processor that behaves like the extractor on every fragment
    except the one marked n=2, where it raises: the scenario of an unexpected
    error during author extraction of the second fragment. -/
def failOnSecond (bs : XmlElem) : Except String (Option CitationRecord) :=
  if attrGet bs "n" == some "2" then Except.error "AttributeError"
  else Except.ok (processBiblStruct bs)

/-- A fragment whose analytic title and monograph journal title carry the same
    text, so the emitted venue equals the emitted title. -/
def bsSameVenue : XmlElem :=
  mkE "biblStruct" [] none
    [ mkE "analytic" [] none [mkE "title" [("type", "main")] (some "X") []]
    , mkE "monogr" [] none [mkE "title" [("level", "j")] (some "X") []] ]

/-- A document holding only the fragment with coinciding venue and title. -/
def docSameVenue : XmlElem := XmlElem.mk "doc" [] none (forestOf [bsSameVenue]) none

/-- A fragment whose only venue source is a monograph-level title differing
    from the analytic title. -/
def bsMonogrVenue : XmlElem :=
  mkE "biblStruct" [] none
    [ mkE "analytic" [] none [mkE "title" [("type", "main")] (some "Paper") []]
    , mkE "monogr" [] none [mkE "title" [("level", "m")] (some "Proc") []] ]

/-- The monogr element of bsMonogrVenue. -/
def monogrOfBsMonogrVenue : XmlElem :=
  mkE "monogr" [] none [mkE "title" [("level", "m")] (some "Proc") []]

/-- A fragment with an empty analytic main-typed title, one author, and a
    monograph main-typed title: the code falls through to the monograph title
    although the analytic rule matched an element. -/
def bsEmptyMain : XmlElem :=
  mkE "biblStruct" [] none
    [ mkE "analytic" [] none
        [ mkE "title" [("type", "main")] none []
        , mkE "author" [] none [mkE "persName" [] none [mkE "surname" [] (some "Doe") []]] ]
    , mkE "monogr" [] none [mkE "title" [("type", "main")] (some "Book") []] ]

/-- A document holding only the empty-analytic-main-title fragment. -/
def docEmptyMain : XmlElem := XmlElem.mk "doc" [] none (forestOf [bsEmptyMain]) none

/-- A fragment whose imprint date has the three-character when attribute 123. -/
def bsShortWhen : XmlElem :=
  mkE "biblStruct" [] none
    [ mkE "analytic" [] none [mkE "title" [("type", "main")] (some "T") []]
    , mkE "monogr" [] none
        [mkE "imprint" [] none [mkE "date" [("when", "123")] none []]] ]

/-- A document holding only the short-when-attribute fragment. -/
def docShortWhen : XmlElem := XmlElem.mk "doc" [] none (forestOf [bsShortWhen]) none

/-- A date element with free text and no when attribute. -/
def dateInPress : XmlElem := mkE "date" [] (some "In press, 2021") []

/-- An analytic section with two authors carrying forenames and surnames. -/
def analyticTwoAuthors : XmlElem :=
  mkE "analytic" [] none
    [ mkE "author" [] none
        [ mkE "persName" [] none
            [ mkE "forename" [("type", "first")] (some "Ashish") []
            , mkE "surname" [] (some "Vaswani") [] ] ]
    , mkE "author" [] none
        [ mkE "persName" [] none
            [ mkE "forename" [] (some "Noam") []
            , mkE "surname" [] (some "Shazeer") [] ] ] ]

/-- A persName with forenames and a surname. -/
def persFull : XmlElem :=
  mkE "persName" [] none
    [ mkE "forename" [] (some "Ashish") [], mkE "surname" [] (some "Vaswani") [] ]

/-- A persName carrying a forename but no surname element. -/
def persNoSurname : XmlElem :=
  mkE "persName" [] none [mkE "forename" [] (some "Ada") []]

theorem firstSome_singleton {α : Type} (x : Option α) : firstSome [x] = x := by
  cases x <;> rfl

theorem venueMeeting_eq_ruleA (m : XmlElem) : venueMeeting m = venueRuleA m := by
  unfold venueMeeting venueRuleA
  cases h : findChild (tagIs "meeting") m <;> simp [extract_text]

theorem venueMeeting_truthy (m : XmlElem) (s : String) (h : venueMeeting m = some s) :
    (s != "") = true := by
  unfold venueMeeting at h
  rcases h1 : findChild (tagIs "meeting") m with _ | me <;> rw [h1] at h <;> dsimp only at h
  · exact absurd h (by simp)
  · rcases h2 : extract_text (some me) with _ | mt <;> rw [h2] at h <;> dsimp only at h
    · exact absurd h (by simp)
    · split at h
      · cases h; assumption
      · exact absurd h (by simp)

theorem analyticTitle_eq_spec (bs : XmlElem) : analyticTitleOf bs = specAnalyticTitle bs := by
  unfold analyticTitleOf specAnalyticTitle
  cases hA : findDesc (tagIs "analytic") bs with
  | none => simp [firstSome]
  | some a =>
    unfold titleFromAnalytic
    cases h1 : findDesc isMainTitle a with
    | some e => simp [h1, firstSome]
    | none =>
      cases h2 : findDesc (isLevelTitle "a") a <;> simp [h1, h2, firstSome]

theorem yearFromText_empty : yearFromText "" = none := rfl

theorem pyInt_empty : pyInt "" = none := rfl

theorem authorsLoop_eq_filterMap (l : List XmlElem) (acc : List String) :
    authorsLoop acc l = acc ++ l.filterMap authorName := by
  induction l generalizing acc with
  | nil => simp [authorsLoop]
  | cons a rest ih =>
    cases h : authorName a with
    | none => simp [authorsLoop, h, ih]
    | some n => simp [authorsLoop, h, ih]

theorem isDigit_toNat {c : Char} (h : c.isDigit = true) : 48 ≤ c.toNat ∧ c.toNat ≤ 57 := by
  simp only [Char.isDigit, Bool.and_eq_true, decide_eq_true_eq] at h
  exact h

theorem digit_ne_underscore {c : Char} (h : c.isDigit = true) : c ≠ '_' := by
  intro heq; subst heq; exact absurd h (by decide)

theorem digit_not_pySpace {c : Char} (h : c.isDigit = true) : isPySpace c = false := by
  by_contra hc
  rw [Bool.not_eq_false] at hc
  simp only [isPySpace, Bool.or_eq_true, beq_iff_eq] at hc
  rcases hc with ((((rfl | rfl) | rfl) | rfl) | rfl) | rfl <;> exact absurd h (by decide)

theorem digitsRest_cons {acc : Nat} {c : Char} {cs : List Char} (h : c.isDigit = true) :
    digitsRest acc (c :: cs) = digitsRest (acc * 10 + (c.toNat - 48)) cs := by
  have hne : c ≠ '_' := digit_ne_underscore h
  rw [digitsRest.eq_def]
  cases cs with
  | nil =>
    split
    · rename_i heq; cases heq
    · rename_i heq; cases heq
    · rename_i heq; injection heq with h1 _; exact absurd h1 hne
    · rename_i heq; injection heq with h1 h2; subst h1; subst h2; rw [if_pos h]
  | cons c2 cs2 =>
    split
    · rename_i heq; cases heq
    · rename_i heq; injection heq with h1 _; exact absurd h1 hne
    · rename_i heq; cases heq
    · rename_i heq; injection heq with h1 h2; subst h1; subst h2; rw [if_pos h]

theorem stripChars_quad {c1 c2 c3 c4 : Char} (h1 : isPySpace c1 = false)
    (h4 : isPySpace c4 = false) :
    stripChars [c1, c2, c3, c4] = [c1, c2, c3, c4] := by
  simp [stripChars, List.dropWhile, h1, h4]

theorem pyInt_year_quad (c1 c2 c3 c4 : Char)
    (h12 : (c1 = '1' ∧ c2 = '9') ∨ (c1 = '2' ∧ c2 = '0'))
    (h3 : c3.isDigit = true) (h4 : c4.isDigit = true) :
    ∃ n : Nat, pyInt (String.mk [c1, c2, c3, c4]) = some (n : Int) ∧
      1900 ≤ n ∧ n ≤ 2099 := by
  obtain ⟨hlo3, hhi3⟩ := isDigit_toNat h3
  obtain ⟨hlo4, hhi4⟩ := isDigit_toNat h4
  have hs4 := digit_not_pySpace h4
  rcases h12 with ⟨rfl, rfl⟩ | ⟨rfl, rfl⟩
  · refine ⟨(19 * 10 + (c3.toNat - 48)) * 10 + (c4.toNat - 48), ?_, by omega, by omega⟩
    unfold pyInt
    rw [show (String.mk ['1', '9', c3, c4]).data = ['1', '9', c3, c4] from rfl]
    rw [stripChars_quad (by decide) hs4]
    dsimp only
    rw [if_neg (by decide), if_neg (by decide)]
    rw [show digitsStart ['1', '9', c3, c4] = digitsRest 19 [c3, c4] from rfl]
    rw [digitsRest_cons h3, digitsRest_cons h4]
    rfl
  · refine ⟨(20 * 10 + (c3.toNat - 48)) * 10 + (c4.toNat - 48), ?_, by omega, by omega⟩
    unfold pyInt
    rw [show (String.mk ['2', '0', c3, c4]).data = ['2', '0', c3, c4] from rfl]
    rw [stripChars_quad (by decide) hs4]
    dsimp only
    rw [if_neg (by decide), if_neg (by decide)]
    rw [show digitsStart ['2', '0', c3, c4] = digitsRest 20 [c3, c4] from rfl]
    rw [digitsRest_cons h3, digitsRest_cons h4]
    rfl

theorem yearScan_sound (l : List Char) : ∀ (prev : Bool) (quad : List Char),
    yearScan prev l = some quad →
    ∃ c1 c2 c3 c4, quad = [c1, c2, c3, c4] ∧
      ((c1 = '1' ∧ c2 = '9') ∨ (c1 = '2' ∧ c2 = '0')) ∧
      c3.isDigit = true ∧ c4.isDigit = true := by
  induction l with
  | nil => intro prev quad h; exact absurd h (by rw [show yearScan prev [] = none from rfl]; simp)
  | cons a l' ih =>
    intro prev quad h
    cases l' with
    | nil => exact absurd h (by rw [show yearScan prev [a] = none from rfl]; simp)
    | cons b l2 =>
      cases l2 with
      | nil => exact absurd h (by rw [show yearScan prev [a, b] = none from rfl]; simp)
      | cons c l3 =>
        cases l3 with
        | nil => exact absurd h (by rw [show yearScan prev [a, b, c] = none from rfl]; simp)
        | cons d rest =>
          unfold yearScan at h
          split at h
          · rename_i hcond
            injection h with h'
            subst h'
            simp only [Bool.and_eq_true, Bool.or_eq_true, beq_iff_eq] at hcond
            obtain ⟨⟨⟨⟨hprev, hor⟩, hc3⟩, hc4⟩, hbd⟩ := hcond
            exact ⟨a, b, c, d, rfl, hor, hc3, hc4⟩
          · exact ih _ _ h

theorem yearFromText_bounds (t : String) (y : Int) (h : yearFromText t = some y) :
    1900 ≤ y ∧ y ≤ 2099 := by
  unfold yearFromText at h
  cases hscan : yearScan false t.data with
  | none => rw [hscan] at h; cases h
  | some quad =>
    rw [hscan] at h
    obtain ⟨c1, c2, c3, c4, rfl, h12, h3, h4⟩ := yearScan_sound _ _ _ hscan
    obtain ⟨n, hn, hlo, hhi⟩ := pyInt_year_quad c1 c2 c3 c4 h12 h3 h4
    replace h : pyInt (String.mk [c1, c2, c3, c4]) = some y := h
    rw [hn] at h
    injection h with h'
    subst h'
    constructor <;> omega

/-- C1, counterexample. The claim says an unexpected error while resolving one
    fragment skips only that fragment, so with three fragments and the second
    failing, the output should still contain the records of fragments one and
    three. On the code the whole loop sits inside a single except handler: the
    third fragment's record is missing from the output. -/
theorem C1_counterexample :
    runFragments failOnSecond [fragFirst, fragSecond, fragThird] =
      [{ title := some "First", authors := [], proceedings := none, year := none }] ∧
    ({ title := some "Third", authors := [], proceedings := none, year := none } :
        CitationRecord) ∉
      runFragments failOnSecond [fragFirst, fragSecond, fragThird] := by decide

/-- C1, amended. When processing of fragment f raises and every fragment
    before it succeeds, the returned sequence holds exactly the records of the
    fragments before f: the failing fragment and every fragment after it are
    discarded, fragments before it are kept. -/
theorem C1_fragment_error_truncates
    (process : XmlElem → Except String (Option CitationRecord))
    (fs gs : List XmlElem) (f : XmlElem) (e : String)
    (hok : ∀ x ∈ fs, (process x).isOk = true) (herr : process f = Except.error e) :
    runFragments process (fs ++ f :: gs) =
      fs.filterMap (fun x => okRecord (process x)) := by
  induction fs with
  | nil => simp [runFragments, herr]
  | cons a fs ih =>
    have ha := hok a (List.mem_cons_self a fs)
    cases hpa : process a with
    | error err => rw [hpa] at ha; simp [Except.isOk, Except.toBool] at ha
    | ok r =>
      have ih' := ih (fun x hx => hok x (List.mem_cons_of_mem _ hx))
      cases r with
      | none => simpa [runFragments, hpa, okRecord] using ih'
      | some rec => simpa [runFragments, hpa, okRecord] using ih'

/-- C1, witness for the amended theorem at the three-fragment scenario. -/
theorem C1_fragment_error_truncates_witness :
    runFragments failOnSecond ([fragFirst] ++ fragSecond :: [fragThird]) =
      [fragFirst].filterMap (fun x => okRecord (failOnSecond x)) :=
  C1_fragment_error_truncates failOnSecond [fragFirst] [fragThird] fragSecond
    "AttributeError"
    (by intro x hx; simp only [List.mem_singleton] at hx; subst hx; rfl) rfl

/-- C2, counterexample. The claim says an emitted venue is never equal to the
    emitted title, but a fragment whose analytic title and monograph journal
    title carry the same text is emitted with venue equal to title: the dedup
    comparison guards only the monograph-level-title rule. -/
theorem C2_counterexample :
    parse_citations_from_xml docSameVenue =
      [{ title := some "X", authors := [], proceedings := some "X", year := none }] ∧
    ({ title := some "X", authors := [], proceedings := some "X", year := none } :
      CitationRecord).proceedings =
      ({ title := some "X", authors := [], proceedings := some "X", year := none } :
      CitationRecord).title := by decide

/-- C2, amended. For every emitted record whose monogr section offers no truthy
    meeting text and no journal-level title, so that the only available venue
    source is a monograph-level title: a present venue is never equal to the
    title; in particular a monograph-level title whose text equals the
    already-resolved title leaves the venue absent. -/
theorem C2_monogr_venue_ne_title (bs : XmlElem) (r : CitationRecord)
    (hr : processBiblStruct bs = some r)
    (hmono : ∀ m, findDesc (tagIs "monogr") bs = some m →
      venueMeeting m = none ∧ findDesc (isLevelTitle "j") m = none)
    (hp : r.proceedings.isSome = true) :
    r.proceedings ≠ r.title := by
  unfold processBiblStruct at hr
  dsimp only at hr
  split at hr
  · injection hr with hr'
    subst hr'
    dsimp only at hp ⊢
    cases hM : findDesc (tagIs "monogr") bs with
    | none => rw [hM] at hp; simp at hp
    | some m =>
      obtain ⟨hme, hj⟩ := hmono m hM
      rw [hM] at hp
      dsimp only at hp ⊢
      unfold resolveVenue at hp ⊢
      rw [hme, hj] at hp ⊢
      simp only [truthy, Bool.false_eq_true, if_false] at hp ⊢
      cases h2 : findDesc (isLevelTitle "m") m with
      | none => rw [h2] at hp; simp at hp
      | some pe =>
        rw [h2] at hp
        dsimp only at hp ⊢
        split at hp
        · rename_i hcond
          rw [if_pos hcond]
          have hb := (Bool.and_eq_true _ _ |>.mp hcond).2
          have hne : resolveTitle bs ≠ some (extract_all_text (some pe)) :=
            bne_iff_ne.mp hb
          intro heq
          exact hne heq.symm
        · simp at hp
  · exact absurd hr (by simp)

/-- C2, witness: the amended theorem applied to a fragment with analytic title
    Paper and monograph-level title Proc. -/
theorem C2_monogr_venue_ne_title_witness :
    ({ title := some "Paper", authors := [], proceedings := some "Proc", year := none } :
      CitationRecord).proceedings ≠
      ({ title := some "Paper", authors := [], proceedings := some "Proc", year := none } :
      CitationRecord).title :=
  C2_monogr_venue_ne_title bsMonogrVenue
    { title := some "Paper", authors := [], proceedings := some "Proc", year := none } rfl
    (by intro m hm; injection hm with h; subst h; exact ⟨rfl, rfl⟩) rfl

/-- C3. A record is emitted for a fragment exactly when the resolved title is
    truthy (present and non-empty) or the resolved authors list is non-empty;
    a fragment with neither contributes no record. -/
theorem C3_emission_iff_title_or_authors (bs : XmlElem) :
    (processBiblStruct bs).isSome =
      (truthy (resolveTitle bs) || resolveAuthorsOf bs != ([] : List String)) := by
  cases h : truthy (resolveTitle bs) || resolveAuthorsOf bs != ([] : List String) <;>
    simp [processBiblStruct, h]

/-- C4. Venue resolution from the monogr section equals the spec's ordered
    rule chain: (a) the meeting element's truthy trimmed text, else (b) a
    journal-level title's full descendant text, else (c) a monograph-level
    title's non-empty text when it differs from the already-resolved title;
    the first successful rule wins and later rules are never consulted. -/
theorem C4_venue_rule_chain (m : XmlElem) (title : Option String) :
    resolveVenue m title = venueRules m title := by
  unfold resolveVenue venueRules
  rw [← venueMeeting_eq_ruleA]
  cases hA : venueMeeting m with
  | some s =>
    have hs := venueMeeting_truthy m s hA
    simp [truthy, hs, firstSome]
  | none =>
    simp only [truthy, firstSome]
    cases hB : findDesc (isLevelTitle "j") m with
    | some j => simp [venueRuleB, hB, firstSome]
    | none =>
      cases hC : findDesc (isLevelTitle "m") m with
      | some pe =>
        simp only [venueRuleB, hB, venueRuleC, hC, Option.map_none]
        simp only [firstSome, firstSome_singleton]
        simp
      | none => simp [venueRuleB, hB, venueRuleC, hC, firstSome]

/-- C5, counterexample. The claim's four-rule fallback stops at the first
    matching title element, so a fragment whose analytic main-typed title is
    empty should resolve to the empty title; the code instead falls through to
    the monograph main-typed title Book, and the emitted record shows it. -/
theorem C5_counterexample :
    resolveTitle bsEmptyMain = some "Book" ∧
    titleRulesAsStated bsEmptyMain = some "" ∧
    parse_citations_from_xml docEmptyMain =
      [{ title := some "Book", authors := ["Doe"], proceedings := none, year := none }] := by
  decide

/-- C5, amended. Title resolution follows the four ordered rules with one
    correction: within the analytic section the main-typed rule still blocks
    the article-level rule even when its text is empty, but the two monograph
    rules are consulted whenever the analytic result is absent or empty, not
    only when no analytic element matched. -/
theorem C5_title_rules_amended (bs : XmlElem) :
    resolveTitle bs = titleRulesAmended bs := by
  unfold resolveTitle titleRulesAmended
  rw [← analyticTitle_eq_spec]
  cases ht : truthy (analyticTitleOf bs) with
  | true => simp
  | false =>
    simp only [Bool.false_eq_true, if_false]
    cases hM : findDesc (tagIs "monogr") bs with
    | none => simp [firstSome]
    | some m =>
      cases h1 : findDesc isMainTitle m with
      | some e => simp [h1, firstSome]
      | none =>
        cases h2 : findDesc (isLevelTitle "m") m <;> simp [h1, h2, firstSome]

/-- C6. Year resolution from the chosen date element equals the spec's rule:
    parse the leading four characters of the when attribute as an integer, and
    only when the attribute is absent or unparsable fall back to the first
    boundary-delimited 19xx or 20xx match in the element's visible text; when
    both paths would yield a year the attribute wins, and when neither does the
    year is absent. -/
theorem C6_year_attribute_first (d : XmlElem) : resolveYearFromDate d = yearRules d := by
  unfold resolveYearFromDate yearRules yearWhenAttr yearTextOf
  cases hW : attrGet d "when" with
  | none =>
    cases hT : extract_text (some d) with
    | none => simp
    | some t =>
      by_cases ht : t = ""
      · subst ht; simp [yearFromText_empty]
      · simp [ht]
  | some a =>
    by_cases ha : a = ""
    · subst ha
      simp only [String.data]
      rw [show (("" : String).data.take 4) = [] from rfl]
      simp [pyInt_empty]
      cases hT : extract_text (some d) with
      | none => simp
      | some t =>
        by_cases ht : t = ""
        · subst ht; simp [yearFromText_empty]
        · simp [ht]
    · simp only [ha]
      cases hP : pyInt (String.mk (a.data.take 4)) with
      | some y => simp [ha, hP]
      | none =>
        simp [ha, hP]
        cases hT : extract_text (some d) with
        | none => simp
        | some t =>
          by_cases ht : t = ""
          · subst ht; simp [yearFromText_empty]
          · simp [ht]

/-- C7, counterexample. The claim says every emitted year is a four-digit
    integer whatever the when attribute holds, but the attribute 123 parses to
    the three-digit year 123, which is emitted on the record. -/
theorem C7_counterexample :
    parse_citations_from_xml docShortWhen =
      [{ title := some "T", authors := [], proceedings := none, year := some 123 }] ∧
    ¬(1000 ≤ (123 : Int) ∧ (123 : Int) ≤ 9999) := by decide

/-- C7, amended. A year resolved through the visible-text fallback, which runs
    exactly when the attribute path yields nothing, is a four-digit integer
    between 1900 and 2099; a year from the when attribute is the integer parse
    of its leading four characters and need not have four digits. -/
theorem C7_text_year_four_digits (d : XmlElem) (y : Int)
    (hattr : yearWhenAttr d = none) (hy : resolveYearFromDate d = some y) :
    1900 ≤ y ∧ y ≤ 2099 := by
  unfold resolveYearFromDate at hy
  rw [hattr] at hy
  unfold yearTextOf at hy
  cases hT : extract_text (some d) with
  | none => rw [hT] at hy; cases hy
  | some t =>
    rw [hT] at hy
    dsimp only at hy
    split at hy
    · exact yearFromText_bounds t y hy
    · cases hy

/-- C7, witness: the amended theorem applied to a date element whose text is
    In press, 2021 and which carries no when attribute. -/
theorem C7_text_year_four_digits_witness : (1900 : Int) ≤ 2021 ∧ (2021 : Int) ≤ 2099 :=
  C7_text_year_four_digits dateInPress 2021 rfl rfl

/-- C8. Authors come only from the analytic section, in document order with no
    sorting and no deduplication (the accumulation loop equals filterMap over
    the author elements in document order); and for one persName the displayed
    name is the space-joined truthy forenames followed by the surname when both
    are present, the surname alone when only it is present, and no entry when
    neither is present. -/
theorem C8_author_names (analytic p : XmlElem) :
    (resolveAuthors analytic =
      (findAllDesc (tagIs "author") analytic).filterMap authorName)
    ∧ (forenamesOf p ≠ [] → ∀ s, surnameOf p = some s → s ≠ "" →
        nameFromPers p = some (String.intercalate " " (forenamesOf p) ++ " " ++ s))
    ∧ (forenamesOf p = [] → ∀ s, surnameOf p = some s → s ≠ "" →
        nameFromPers p = some s)
    ∧ (forenamesOf p = [] → (∀ s, surnameOf p = some s → s = "") →
        nameFromPers p = none) := by
  refine ⟨?_, ?_, ?_, ?_⟩
  · unfold resolveAuthors
    simpa using authorsLoop_eq_filterMap (findAllDesc (tagIs "author") analytic) []
  · intro hf s hs hsne
    unfold nameFromPers
    rw [hs]
    have h1 : (forenamesOf p != []) = true := by simpa using hf
    have h2 : (s != "") = true := by simpa using hsne
    simp [h1, h2]
  · intro hf s hs hsne
    unfold nameFromPers
    rw [hs, hf]
    have h2 : (s != "") = true := by simpa using hsne
    simp [h2]
  · intro _hf hs
    unfold nameFromPers
    cases h : surnameOf p with
    | none => rfl
    | some s =>
      have : s = "" := hs s h
      subst this
      simp

/-- C8, witness: the theorem applied to an analytic section with two authors
    and to a persName with forename Ashish and surname Vaswani. -/
theorem C8_author_names_witness :
    resolveAuthors analyticTwoAuthors =
      (findAllDesc (tagIs "author") analyticTwoAuthors).filterMap authorName ∧
    nameFromPers persFull = some "Ashish Vaswani" := by
  refine ⟨(C8_author_names analyticTwoAuthors persFull).1, ?_⟩
  have h := (C8_author_names analyticTwoAuthors persFull).2.1 (by decide) "Vaswani" rfl
    (by decide)
  simpa using h

/-- C10. An author entry whose persName holds one or more truthy forenames but
    no truthy surname contributes no entry: the given names alone are never
    used as a display name. -/
theorem C10_forenames_without_surname (p : XmlElem)
    (_hf : forenamesOf p ≠ [])
    (hs : ∀ s, surnameOf p = some s → s = "") :
    nameFromPers p = none := by
  unfold nameFromPers
  cases h : surnameOf p with
  | none => rfl
  | some s =>
    have : s = "" := hs s h
    subst this
    simp

/-- C10, witness: the theorem applied to a persName carrying the forename Ada
    and no surname element. -/
theorem C10_forenames_without_surname_witness : nameFromPers persNoSurname = none :=
  C10_forenames_without_surname persNoSurname (by decide) (by intro s h; cases h)

theorem parseStringBody_cons_plain (c : Char) (rest : List Char)
    (h1 : c ≠ '"') (h2 : c ≠ '\\') :
    parseStringBody (c :: rest) =
      match parseStringBody rest with
      | some (cs, r) => some (c :: cs, r)
      | none => none := by
  rw [parseStringBody.eq_def]
  simp only [h1, h2, if_false]

theorem parseStringBody_esc (e : Char) (rest2 : List Char) (he : e ≠ 'u') :
    parseStringBody ('\\' :: e :: rest2) =
      match unescapeChar e, parseStringBody rest2 with
      | some c2, some (cs, r) => some (c2 :: cs, r)
      | _, _ => none := by
  rw [parseStringBody.eq_def]
  simp [he]

theorem parseStringBody_escU (h1 h2 h3 h4 : Char) (rest3 : List Char) :
    parseStringBody ('\\' :: 'u' :: h1 :: h2 :: h3 :: h4 :: rest3) =
      match hexVal h1, hexVal h2, hexVal h3, hexVal h4, parseStringBody rest3 with
      | some a, some b, some c2, some d, some (cs, r) =>
        some (Char.ofNat (((a * 16 + b) * 16 + c2) * 16 + d) :: cs, r)
      | _, _, _, _, _ => none := by
  rw [parseStringBody.eq_def]
  simp

theorem hexVal_hexDig (n : Nat) (h : n < 16) : hexVal (hexDig n) = some n := by
  interval_cases n <;> rfl

theorem parseStringBody_escChar (c : Char) (X : List Char) (cs' rest' : List Char)
    (hX : parseStringBody X = some (cs', rest')) :
    parseStringBody (escCharL c ++ X) = some (c :: cs', rest') := by
  by_cases h1 : c = '"'
  · subst h1
    show parseStringBody ('\\' :: '"' :: X) = _
    rw [parseStringBody_esc _ _ (by decide), hX]; rfl
  · by_cases h2 : c = '\\'
    · subst h2
      show parseStringBody ('\\' :: '\\' :: X) = _
      rw [parseStringBody_esc _ _ (by decide), hX]; rfl
    · by_cases h3 : c = '\x08'
      · subst h3
        show parseStringBody ('\\' :: 'b' :: X) = _
        rw [parseStringBody_esc _ _ (by decide), hX]; rfl
      · by_cases h4 : c = '\x0c'
        · subst h4
          show parseStringBody ('\\' :: 'f' :: X) = _
          rw [parseStringBody_esc _ _ (by decide), hX]; rfl
        · by_cases h5 : c = '\n'
          · subst h5
            show parseStringBody ('\\' :: 'n' :: X) = _
            rw [parseStringBody_esc _ _ (by decide), hX]; rfl
          · by_cases h6 : c = '\x0d'
            · subst h6
              show parseStringBody ('\\' :: 'r' :: X) = _
              rw [parseStringBody_esc _ _ (by decide), hX]; rfl
            · by_cases h7 : c = '\t'
              · subst h7
                show parseStringBody ('\\' :: 't' :: X) = _
                rw [parseStringBody_esc _ _ (by decide), hX]; rfl
              · by_cases hlt : c.toNat < 32
                · rw [show escCharL c =
                    ['\\', 'u', '0', '0', hexDig (c.toNat / 16), hexDig (c.toNat % 16)] from
                    by simp [escCharL, h1, h2, h3, h4, h5, h6, h7, hlt]]
                  rw [show (['\\', 'u', '0', '0', hexDig (c.toNat / 16),
                      hexDig (c.toNat % 16)] : List Char) ++ X =
                    '\\' :: 'u' :: '0' :: '0' :: hexDig (c.toNat / 16) ::
                      hexDig (c.toNat % 16) :: X from rfl]
                  rw [parseStringBody_escU]
                  have hdiv : c.toNat / 16 < 16 := by omega
                  have hmod : c.toNat % 16 < 16 := Nat.mod_lt _ (by norm_num)
                  rw [hexVal_hexDig _ hdiv, hexVal_hexDig _ hmod, hX]
                  rw [show hexVal '0' = some 0 from rfl]
                  dsimp only
                  rw [show ((0 * 16 + 0) * 16 + c.toNat / 16) * 16 + c.toNat % 16 = c.toNat
                    by omega]
                  rw [Char.ofNat_toNat]
                · rw [show escCharL c = [c] from
                    by simp [escCharL, h1, h2, h3, h4, h5, h6, h7, hlt]]
                  rw [show ([c] : List Char) ++ X = c :: X from rfl]
                  rw [parseStringBody_cons_plain c _ h1 h2, hX]

theorem parseStringBody_encode (s : List Char) (rest : List Char) :
    parseStringBody (s.flatMap escCharL ++ '"' :: rest) = some (s, rest) := by
  induction s with
  | nil =>
    rw [show ([] : List Char).flatMap escCharL ++ '"' :: rest = '"' :: rest by simp]
    rw [parseStringBody.eq_def]; simp
  | cons c cs ih =>
    rw [show (c :: cs).flatMap escCharL ++ '"' :: rest =
      escCharL c ++ (cs.flatMap escCharL ++ '"' :: rest) by simp]
    exact parseStringBody_escChar c _ cs rest ih

theorem dumpJ_null (lvl : Nat) : dumpJ lvl .jnull = ['n', 'u', 'l', 'l'] := by
  simp only [dumpJ]

theorem dumpJ_int (lvl : Nat) (i : Int) : dumpJ lvl (.jint i) = intChars i := by
  simp only [dumpJ]

theorem dumpJ_str (lvl : Nat) (s : String) : dumpJ lvl (.jstr s) = encodeStrL s := by
  simp only [dumpJ]

theorem dumpJ_arr_nil (lvl : Nat) : dumpJ lvl (.jarr []) = ['[', ']'] := by
  simp only [dumpJ]

theorem dumpJ_arr_cons (lvl : Nat) (x : JValue) (xs : List JValue) :
    dumpJ lvl (.jarr (x :: xs)) =
      '[' :: (nlIndent (lvl + 1) ++ dumpJ (lvl + 1) x ++ dumpItems (lvl + 1) xs
        ++ nlIndent lvl ++ [']']) := by
  simp only [dumpJ]

theorem dumpJ_obj_nil (lvl : Nat) : dumpJ lvl (.jobj []) = ['\x7b', '\x7d'] := by
  simp only [dumpJ]

theorem dumpJ_obj_cons (lvl : Nat) (k : String) (v : JValue) (fs : List (String × JValue)) :
    dumpJ lvl (.jobj ((k, v) :: fs)) =
      '\x7b' :: (nlIndent (lvl + 1) ++ dumpField (lvl + 1) k v ++ dumpFields (lvl + 1) fs
        ++ nlIndent lvl ++ ['\x7d']) := by
  simp only [dumpJ]

theorem dumpItems_nil (lvl : Nat) : dumpItems lvl [] = [] := by
  simp only [dumpItems]

theorem dumpItems_cons (lvl : Nat) (x : JValue) (xs : List JValue) :
    dumpItems lvl (x :: xs) = ',' :: (nlIndent lvl ++ dumpJ lvl x ++ dumpItems lvl xs) := by
  simp only [dumpItems]

theorem dumpField_eq (lvl : Nat) (k : String) (v : JValue) :
    dumpField lvl k v = encodeStrL k ++ ':' :: ' ' :: dumpJ lvl v := by
  simp only [dumpField]

theorem dumpFields_nil (lvl : Nat) : dumpFields lvl [] = [] := by
  simp only [dumpFields]

theorem dumpFields_cons (lvl : Nat) (k : String) (v : JValue) (fs : List (String × JValue)) :
    dumpFields lvl ((k, v) :: fs) =
      ',' :: (nlIndent lvl ++ dumpField lvl k v ++ dumpFields lvl fs) := by
  simp only [dumpFields]

theorem digit_not_jsonWs {c : Char} (h : c.isDigit = true) : isJsonWs c = false := by
  by_contra hc
  rw [Bool.not_eq_false] at hc
  simp only [isJsonWs, Bool.or_eq_true, beq_iff_eq] at hc
  rcases hc with ((rfl | rfl) | rfl) | rfl <;> exact absurd h (by decide)

theorem digitChar_isDigit (d : Nat) (h : d < 10) : (Char.ofNat (48 + d)).isDigit = true := by
  interval_cases d <;> decide

theorem digitChar_toNat (d : Nat) (h : d < 10) : (Char.ofNat (48 + d)).toNat - 48 = d := by
  interval_cases d <;> decide

theorem natChars_cons : ∀ n : Nat, n ≠ 0 → ∃ c cs, natChars n = c :: cs ∧ c.isDigit = true := by
  intro n
  induction n using Nat.strong_induction_on with
  | _ n ih =>
    intro hn
    match n, hn with
    | m + 1, _ =>
      rw [natChars]
      by_cases h10 : (m + 1) / 10 = 0
      · rw [h10, natChars]
        exact ⟨_, [], rfl, digitChar_isDigit _ (Nat.mod_lt _ (by norm_num))⟩
      · obtain ⟨c, cs, hc, hd⟩ := ih ((m + 1) / 10)
          (Nat.div_lt_self (Nat.succ_pos m) (by norm_num)) h10
        rw [hc]
        exact ⟨c, cs ++ [Char.ofNat (48 + (m + 1) % 10)], by simp, hd⟩

theorem parseNatLoop_digit {acc : Nat} {c : Char} {rest : List Char} (h : c.isDigit = true) :
    parseNatLoop acc (c :: rest) = parseNatLoop (acc * 10 + (c.toNat - 48)) rest := by
  rw [parseNatLoop.eq_def]
  simp [h]

theorem parseNatLoop_stop (acc : Nat) (rest : List Char) (h : headNotDigit rest = true) :
    parseNatLoop acc rest = (acc, rest) := by
  cases rest with
  | nil => rfl
  | cons c l =>
    simp only [headNotDigit, Bool.not_eq_true'] at h
    rw [parseNatLoop.eq_def]
    simp [h]

theorem parseNatLoop_natChars : ∀ n : Nat, n ≠ 0 → ∀ (acc : Nat) (rest : List Char),
    parseNatLoop acc (natChars n ++ rest) =
      parseNatLoop (acc * 10 ^ (natChars n).length + n) rest := by
  intro n
  induction n using Nat.strong_induction_on with
  | _ n ih =>
    intro hn acc rest
    match n, hn with
    | m + 1, _ =>
      rw [natChars]
      by_cases h10 : (m + 1) / 10 = 0
      · rw [h10, natChars]
        have hd := digitChar_isDigit ((m + 1) % 10) (Nat.mod_lt _ (by norm_num))
        rw [show ([] : List Char) ++ [Char.ofNat (48 + (m + 1) % 10)] ++ rest =
          Char.ofNat (48 + (m + 1) % 10) :: rest by simp]
        rw [parseNatLoop_digit hd]
        rw [digitChar_toNat _ (Nat.mod_lt _ (by norm_num))]
        have hmod : (m + 1) % 10 = m + 1 := by
          have := Nat.div_add_mod (m + 1) 10
          omega
        rw [hmod]
        simp
      · have hlen : (natChars ((m + 1) / 10) ++ [Char.ofNat (48 + (m + 1) % 10)]).length =
          (natChars ((m + 1) / 10)).length + 1 := by simp
        rw [show natChars ((m + 1) / 10) ++ [Char.ofNat (48 + (m + 1) % 10)] ++ rest =
          natChars ((m + 1) / 10) ++ (Char.ofNat (48 + (m + 1) % 10) :: rest) by simp]
        rw [ih ((m + 1) / 10) (Nat.div_lt_self (Nat.succ_pos m) (by norm_num)) h10]
        have hd := digitChar_isDigit ((m + 1) % 10) (Nat.mod_lt _ (by norm_num))
        rw [parseNatLoop_digit hd]
        rw [digitChar_toNat _ (Nat.mod_lt _ (by norm_num))]
        rw [hlen]
        congr 1
        have hdm := Nat.div_add_mod (m + 1) 10
        rw [pow_succ]
        set L := (natChars ((m + 1) / 10)).length
        set q := (m + 1) / 10
        set r := (m + 1) % 10
        calc (acc * 10 ^ L + q) * 10 + r = acc * (10 ^ L * 10) + (q * 10 + r) := by ring
    _ = acc * (10 ^ L * 10) + (m + 1) := by omega

theorem parseNatNum_print (n : Nat) (rest : List Char) (h : headNotDigit rest = true) :
    parseNatNum (natCharsFull n ++ rest) = some (n, rest) := by
  by_cases h0 : n = 0
  · subst h0
    rw [show natCharsFull 0 ++ rest = '0' :: rest from rfl]
    rw [parseNatNum.eq_def]
    simp only [show ('0').isDigit = true from rfl, if_true]
    rw [show ('0').toNat - 48 = 0 from rfl, parseNatLoop_stop _ _ h]
  · obtain ⟨c, cs, hc, hd⟩ := natChars_cons n h0
    rw [show natCharsFull n = natChars n from by simp [natCharsFull, h0]]
    have key : parseNatLoop 0 (natChars n ++ rest) = (n, rest) := by
      rw [parseNatLoop_natChars n h0 0 rest]
      simp only [Nat.zero_mul, Nat.zero_add]
      exact parseNatLoop_stop _ _ h
    rw [hc] at key ⊢
    rw [show (c :: cs) ++ rest = c :: (cs ++ rest) from rfl] at key ⊢
    rw [parseNatLoop_digit hd] at key
    simp only [Nat.zero_mul, Nat.zero_add] at key
    rw [parseNatNum.eq_def]
    simp only [hd, if_true]
    rw [key]

theorem parseIntNum_not_neg (c : Char) (l : List Char) (hc : c ≠ '-') :
    parseIntNum (c :: l) = (parseNatNum (c :: l)).map (fun p => ((p.1 : Int), p.2)) := by
  rw [parseIntNum.eq_def]
  split
  · rename_i heq; injection heq with he _; exact absurd he hc
  · rfl

theorem parseIntNum_print (i : Int) (rest : List Char) (h : headNotDigit rest = true) :
    parseIntNum (intChars i ++ rest) = some (i, rest) := by
  unfold intChars
  by_cases hneg : i < 0
  · rw [if_pos hneg]
    rw [show ('-' :: natCharsFull (-i).toNat) ++ rest =
      '-' :: (natCharsFull (-i).toNat ++ rest) from rfl]
    rw [show parseIntNum ('-' :: (natCharsFull (-i).toNat ++ rest)) =
      (parseNatNum (natCharsFull (-i).toNat ++ rest)).map
        (fun p => (-(p.1 : Int), p.2)) from rfl]
    rw [parseNatNum_print _ _ h]
    simp only [Option.map_some']
    congr 1
    have : ((-i).toNat : Int) = -i := Int.toNat_of_nonneg (by omega)
    rw [show (-(((-i).toNat : Nat) : Int)) = i by omega]
  · rw [if_neg hneg]
    by_cases h0 : i.toNat = 0
    · rw [show natCharsFull i.toNat = ['0'] from by simp [natCharsFull, h0]]
      rw [show (['0'] : List Char) ++ rest = '0' :: rest from rfl]
      rw [parseIntNum_not_neg _ _ (by decide)]
      rw [show ('0' : Char) :: rest = natCharsFull 0 ++ rest from rfl]
      rw [parseNatNum_print _ _ h]
      simp only [Option.map_some']
      have hi : i = ((0 : Nat) : Int) := by omega
      rw [← hi]
    · obtain ⟨c, cs, hc, hd⟩ := natChars_cons i.toNat h0
      rw [show natCharsFull i.toNat = natChars i.toNat from by simp [natCharsFull, h0]]
      rw [hc, show (c :: cs) ++ rest = c :: (cs ++ rest) from rfl]
      rw [parseIntNum_not_neg _ _ (fun he => by subst he; exact absurd hd (by decide))]
      rw [show c :: (cs ++ rest) = (c :: cs) ++ rest from rfl, ← hc]
      rw [show natChars i.toNat = natCharsFull i.toNat from by simp [natCharsFull, h0]]
      rw [parseNatNum_print _ _ h]
      simp only [Option.map_some']
      rw [show ((i.toNat : Nat) : Int) = i by omega]

theorem skipWs_cons_false {c : Char} (l : List Char) (h : isJsonWs c = false) :
    skipWs (c :: l) = c :: l := by
  simp [skipWs, List.dropWhile_cons, h]

theorem skipWs_cons_true {c : Char} (l : List Char) (h : isJsonWs c = true) :
    skipWs (c :: l) = skipWs l := by
  simp [skipWs, List.dropWhile_cons, h]

theorem skipWs_replicate (k : Nat) (l : List Char) :
    skipWs (List.replicate k ' ' ++ l) = skipWs l := by
  induction k with
  | zero => simp
  | succ n ih =>
    rw [List.replicate_succ, List.cons_append, skipWs_cons_true _ (by decide), ih]

theorem skipWs_nlIndent (lvl : Nat) (l : List Char) :
    skipWs (nlIndent lvl ++ l) = skipWs l := by
  rw [show nlIndent lvl ++ l = '\n' :: (List.replicate (2 * lvl) ' ' ++ l) by
    simp [nlIndent]]
  rw [skipWs_cons_true _ (by decide), skipWs_replicate]

theorem parseJ_skip (fuel : Nat) (l1 l2 : List Char) (h : skipWs l1 = skipWs l2) :
    parseJ fuel l1 = parseJ fuel l2 := by
  cases fuel with
  | zero => rfl
  | succ f =>
    rw [parseJ.eq_def, parseJ.eq_def]
    dsimp only
    rw [h]

theorem parseJ_nlIndent (fuel lvl : Nat) (l : List Char) :
    parseJ fuel (nlIndent lvl ++ l) = parseJ fuel l := by
  apply parseJ_skip
  rw [skipWs_nlIndent]

theorem parseJ_space (fuel : Nat) (l : List Char) :
    parseJ fuel (' ' :: l) = parseJ fuel l := by
  apply parseJ_skip
  rw [skipWs_cons_true _ (by decide)]

theorem natChars_head_digit (i : Int) :
    ∃ c cs, intChars i = c :: cs ∧ (c = '-' ∨ c.isDigit = true) := by
  unfold intChars
  by_cases hneg : i < 0
  · rw [if_pos hneg]; exact ⟨'-', _, rfl, Or.inl rfl⟩
  · rw [if_neg hneg]
    by_cases h0 : i.toNat = 0
    · rw [show natCharsFull i.toNat = ['0'] from by simp [natCharsFull, h0]]
      exact ⟨'0', [], rfl, Or.inr (by decide)⟩
    · obtain ⟨c, cs, hc, hd⟩ := natChars_cons i.toNat h0
      rw [show natCharsFull i.toNat = natChars i.toNat from by simp [natCharsFull, h0]]
      exact ⟨c, cs, hc, Or.inr hd⟩

theorem intChars_head_facts (c : Char) (h : c = '-' ∨ c.isDigit = true) :
    isJsonWs c = false ∧ c ≠ '"' ∧ c ≠ 'n' ∧ c ≠ '[' ∧ c ≠ '\x7b' ∧ c ≠ ']' ∧
      c ≠ '\x7d' ∧ (c = '-' || c.isDigit) = true := by
  rcases h with rfl | hd
  · refine ⟨by decide, by decide, by decide, by decide, by decide, by decide, by decide,
      by decide⟩
  · refine ⟨digit_not_jsonWs hd, ?_, ?_, ?_, ?_, ?_, ?_, by simp [hd]⟩ <;>
      (intro heq; subst heq; exact absurd hd (by decide))

theorem dumpJ_head (lvl : Nat) (v : JValue) :
    ∃ c cs, dumpJ lvl v = c :: cs ∧ isJsonWs c = false ∧ c ≠ ']' ∧ c ≠ '\x7d' := by
  cases v with
  | jnull => exact ⟨'n', _, dumpJ_null lvl, by decide, by decide, by decide⟩
  | jstr s => exact ⟨'"', _, dumpJ_str lvl s, by decide, by decide, by decide⟩
  | jint i =>
    obtain ⟨c, cs, hc, hd⟩ := natChars_head_digit i
    obtain ⟨hws, _, _, _, _, hne1, hne2, _⟩ := intChars_head_facts c hd
    exact ⟨c, cs, by rw [dumpJ_int, hc], hws, hne1, hne2⟩
  | jarr vs =>
    cases vs with
    | nil => exact ⟨'[', _, dumpJ_arr_nil lvl, by decide, by decide, by decide⟩
    | cons x xs => exact ⟨'[', _, dumpJ_arr_cons lvl x xs, by decide, by decide, by decide⟩
  | jobj fs =>
    cases fs with
    | nil => exact ⟨'\x7b', _, dumpJ_obj_nil lvl, by decide, by decide, by decide⟩
    | cons f fs =>
      obtain ⟨k, v⟩ := f
      exact ⟨'\x7b', _, dumpJ_obj_cons lvl k v fs, by decide, by decide, by decide⟩

theorem headNotDigit_items (lvl lvl2 : Nat) (xs : List JValue) (tl : List Char) :
    headNotDigit (dumpItems lvl xs ++ (nlIndent lvl2 ++ tl)) = true := by
  cases xs with
  | nil => rw [dumpItems_nil]; simp [nlIndent, headNotDigit]
  | cons x xs => rw [dumpItems_cons]; simp [headNotDigit]

theorem headNotDigit_fields (lvl lvl2 : Nat) (fs : List (String × JValue)) (tl : List Char) :
    headNotDigit (dumpFields lvl fs ++ (nlIndent lvl2 ++ tl)) = true := by
  cases fs with
  | nil => rw [dumpFields_nil]; simp [nlIndent, headNotDigit]
  | cons f fs =>
    obtain ⟨k, v⟩ := f
    rw [dumpFields_cons]; simp [headNotDigit]

theorem jfuel_pos (v : JValue) : 0 < jfuel v := by
  cases v <;> simp [jfuel]

theorem parseJ_arr_step (f : Nat) (l : List Char) :
    parseJ (f + 1) ('[' :: l) =
      match skipWs l with
      | ']' :: r2 => some (.jarr [], r2)
      | l2 =>
        match parseJ f l2 with
        | some (v, r2) =>
          match parseItemsJ f r2 with
          | some (vs, r3) => some (.jarr (v :: vs), r3)
          | none => none
        | none => none := rfl

theorem parseJ_obj_step (f : Nat) (l : List Char) :
    parseJ (f + 1) ('\x7b' :: l) =
      match skipWs l with
      | [] => none
      | c2 :: r2 =>
        if c2 = '\x7d' then some (.jobj [], r2)
        else
          match parseFieldJ f (c2 :: r2) with
          | some (fd, r3) =>
            match parseFieldsJ f r3 with
            | some (fs, r4) => some (.jobj (fd :: fs), r4)
            | none => none
          | none => none := rfl

theorem parseItemsJ_skip (fuel : Nat) (l1 l2 : List Char) (h : skipWs l1 = skipWs l2) :
    parseItemsJ fuel l1 = parseItemsJ fuel l2 := by
  cases fuel with
  | zero => rfl
  | succ f =>
    rw [parseItemsJ.eq_def, parseItemsJ.eq_def]
    dsimp only
    rw [h]

theorem parseItemsJ_end (f : Nat) (rest : List Char) :
    parseItemsJ (f + 1) (']' :: rest) = some ([], rest) := rfl

theorem parseItemsJ_comma (f : Nat) (l : List Char) :
    parseItemsJ (f + 1) (',' :: l) =
      match parseJ f l with
      | some (v, r2) =>
        match parseItemsJ f r2 with
        | some (vs, r3) => some (v :: vs, r3)
        | none => none
      | none => none := rfl

theorem parseFieldJ_quote (f : Nat) (l : List Char) :
    parseFieldJ (f + 1) ('"' :: l) =
      match parseStringBody l with
      | some (k, r2) =>
        match skipWs r2 with
        | ':' :: r3 =>
          match parseJ f r3 with
          | some (v, r4) => some ((String.mk k, v), r4)
          | none => none
        | _ => none
      | none => none := rfl

theorem parseFieldsJ_skip (fuel : Nat) (l1 l2 : List Char) (h : skipWs l1 = skipWs l2) :
    parseFieldsJ fuel l1 = parseFieldsJ fuel l2 := by
  cases fuel with
  | zero => rfl
  | succ f =>
    rw [parseFieldsJ.eq_def, parseFieldsJ.eq_def]
    dsimp only
    rw [h]

theorem parseFieldsJ_end (f : Nat) (rest : List Char) :
    parseFieldsJ (f + 1) ('\x7d' :: rest) = some ([], rest) := rfl

theorem parseFieldsJ_comma (f : Nat) (l : List Char) :
    parseFieldsJ (f + 1) (',' :: l) =
      match parseFieldJ f l with
      | some (fd, r2) =>
        match parseFieldsJ f r2 with
        | some (fs, r3) => some (fd :: fs, r3)
        | none => none
      | none => none := rfl

theorem parseFieldJ_skip (fuel : Nat) (l1 l2 : List Char) (h : skipWs l1 = skipWs l2) :
    parseFieldJ fuel l1 = parseFieldJ fuel l2 := by
  cases fuel with
  | zero => rfl
  | succ f =>
    rw [parseFieldJ.eq_def, parseFieldJ.eq_def]
    dsimp only
    rw [h]

theorem parse_dump_all : ∀ fuel : Nat,
    (∀ v lvl rest, jfuel v ≤ fuel → headNotDigit rest = true →
      parseJ fuel (dumpJ lvl v ++ rest) = some (v, rest)) ∧
    (∀ vs lvl lvl2 rest, jfuelL vs < fuel → headNotDigit rest = true →
      parseItemsJ fuel (dumpItems lvl vs ++ (nlIndent lvl2 ++ ']' :: rest)) =
        some (vs, rest)) ∧
    (∀ k v lvl rest, jfuel v < fuel → headNotDigit rest = true →
      parseFieldJ fuel (dumpField lvl k v ++ rest) = some ((k, v), rest)) ∧
    (∀ fs lvl lvl2 rest, jfuelF fs < fuel → headNotDigit rest = true →
      parseFieldsJ fuel (dumpFields lvl fs ++ (nlIndent lvl2 ++ '\x7d' :: rest)) =
        some (fs, rest)) := by
  intro fuel
  induction fuel with
  | zero =>
    refine ⟨?_, ?_, ?_, ?_⟩
    · intro v lvl rest hf _
      have := jfuel_pos v
      omega
    · intro vs lvl lvl2 rest hf _; omega
    · intro k v lvl rest hf _; omega
    · intro fs lvl lvl2 rest hf _; omega
  | succ f ih =>
    obtain ⟨ihP, ihQ, ihR, ihS⟩ := ih
    refine ⟨?_, ?_, ?_, ?_⟩
    · intro v lvl rest hf hrest
      cases v with
      | jnull =>
        rw [dumpJ_null]
        rw [show (['n', 'u', 'l', 'l'] : List Char) ++ rest =
          'n' :: 'u' :: 'l' :: 'l' :: rest from rfl]
        rfl
      | jstr s =>
        rw [dumpJ_str]
        rw [show encodeStrL s ++ rest = '"' :: (s.data.flatMap escCharL ++ '"' :: rest) by
          simp [encodeStrL]]
        rw [show parseJ (f + 1) ('"' :: (s.data.flatMap escCharL ++ '"' :: rest)) =
          (parseStringBody (s.data.flatMap escCharL ++ '"' :: rest)).map
            (fun p => (JValue.jstr (String.mk p.1), p.2)) from rfl]
        rw [parseStringBody_encode]
        rfl
      | jint i =>
        rw [dumpJ_int]
        obtain ⟨c, cs, hc, hd⟩ := natChars_head_digit i
        obtain ⟨hws, hq, hn, hbr, hob, _, _, hnum⟩ := intChars_head_facts c hd
        rw [hc, show (c :: cs) ++ rest = c :: (cs ++ rest) from rfl]
        rw [parseJ.eq_def]
        dsimp only
        rw [skipWs_cons_false _ hws]
        dsimp only
        rw [if_neg hq, if_neg hn, if_neg hbr, if_neg hob, if_pos hnum]
        rw [show (c :: (cs ++ rest)) = (c :: cs) ++ rest from rfl, ← hc]
        rw [parseIntNum_print i rest hrest]
        rfl
      | jarr vs =>
        cases vs with
        | nil =>
          rw [dumpJ_arr_nil]
          rw [show (['[', ']'] : List Char) ++ rest = '[' :: ']' :: rest from rfl]
          rfl
        | cons x xs =>
          simp only [jfuel, jfuelL] at hf
          have hpx := jfuel_pos x
          rw [dumpJ_arr_cons]
          rw [show ('[' :: (nlIndent (lvl + 1) ++ dumpJ (lvl + 1) x ++ dumpItems (lvl + 1) xs
              ++ nlIndent lvl ++ [']'])) ++ rest =
            '[' :: (nlIndent (lvl + 1) ++ (dumpJ (lvl + 1) x ++ (dumpItems (lvl + 1) xs
              ++ (nlIndent lvl ++ (']' :: rest))))) by simp]
          rw [parseJ_arr_step, skipWs_nlIndent]
          obtain ⟨c0, cs0, hdx, hws0, hne1, hne2⟩ := dumpJ_head (lvl + 1) x
          rw [hdx]
          rw [show (c0 :: cs0) ++ (dumpItems (lvl + 1) xs ++ (nlIndent lvl ++ (']' :: rest))) =
            c0 :: (cs0 ++ (dumpItems (lvl + 1) xs ++ (nlIndent lvl ++ (']' :: rest)))) from rfl]
          rw [skipWs_cons_false _ hws0]
          split
          · rename_i heq
            injection heq with he _
            exact absurd he hne1
          · rw [show c0 :: (cs0 ++ (dumpItems (lvl + 1) xs ++ (nlIndent lvl ++ (']' :: rest)))) =
              (c0 :: cs0) ++ (dumpItems (lvl + 1) xs ++ (nlIndent lvl ++ (']' :: rest)))
              from rfl, ← hdx]
            rw [ihP x (lvl + 1) _ (by omega) (headNotDigit_items _ _ _ _)]
            dsimp only
            rw [ihQ xs (lvl + 1) lvl rest (by omega) hrest]
      | jobj fs =>
        cases fs with
        | nil =>
          rw [dumpJ_obj_nil]
          rw [show (['\x7b', '\x7d'] : List Char) ++ rest = '\x7b' :: '\x7d' :: rest from rfl]
          rfl
        | cons kv fs =>
          obtain ⟨k, v⟩ := kv
          simp only [jfuel, jfuelF] at hf
          have hpv := jfuel_pos v
          rw [dumpJ_obj_cons]
          rw [show ('\x7b' :: (nlIndent (lvl + 1) ++ dumpField (lvl + 1) k v
              ++ dumpFields (lvl + 1) fs ++ nlIndent lvl ++ ['\x7d'])) ++ rest =
            '\x7b' :: (nlIndent (lvl + 1) ++ (dumpField (lvl + 1) k v
              ++ (dumpFields (lvl + 1) fs ++ (nlIndent lvl ++ ('\x7d' :: rest))))) by simp]
          rw [parseJ_obj_step, skipWs_nlIndent]
          rw [show dumpField (lvl + 1) k v
              ++ (dumpFields (lvl + 1) fs ++ (nlIndent lvl ++ ('\x7d' :: rest))) =
            '"' :: (k.data.flatMap escCharL ++ '"' :: ':' :: ' ' :: (dumpJ (lvl + 1) v
              ++ (dumpFields (lvl + 1) fs ++ (nlIndent lvl ++ ('\x7d' :: rest)))))
            by simp [dumpField_eq, encodeStrL]]
          rw [skipWs_cons_false _ (by decide)]
          dsimp only
          rw [if_neg (by decide)]
          rw [show ('"' : Char) :: (k.data.flatMap escCharL ++ '"' :: ':' :: ' ' ::
              (dumpJ (lvl + 1) v ++ (dumpFields (lvl + 1) fs
                ++ (nlIndent lvl ++ ('\x7d' :: rest))))) =
            dumpField (lvl + 1) k v ++ (dumpFields (lvl + 1) fs
              ++ (nlIndent lvl ++ ('\x7d' :: rest)))
            by simp [dumpField_eq, encodeStrL]]
          rw [ihR k v (lvl + 1) _ (by omega) (headNotDigit_fields _ _ _ _)]
          dsimp only
          rw [ihS fs (lvl + 1) lvl rest (by omega) hrest]
    · intro vs lvl lvl2 rest hq hrest
      cases vs with
      | nil =>
        rw [dumpItems_nil]
        rw [show ([] : List Char) ++ (nlIndent lvl2 ++ ']' :: rest) =
          nlIndent lvl2 ++ (']' :: rest) by simp]
        rw [parseItemsJ_skip _ _ (']' :: rest) (by rw [skipWs_nlIndent])]
        exact parseItemsJ_end f rest
      | cons x xs =>
        simp only [jfuelL] at hq
        have hpx := jfuel_pos x
        rw [dumpItems_cons]
        rw [show (',' :: (nlIndent lvl ++ dumpJ lvl x ++ dumpItems lvl xs))
            ++ (nlIndent lvl2 ++ ']' :: rest) =
          ',' :: (nlIndent lvl ++ (dumpJ lvl x ++ (dumpItems lvl xs
            ++ (nlIndent lvl2 ++ (']' :: rest))))) by simp]
        rw [parseItemsJ_comma, parseJ_nlIndent]
        rw [ihP x lvl _ (by omega) (headNotDigit_items _ _ _ _)]
        dsimp only
        rw [ihQ xs lvl lvl2 rest (by omega) hrest]
    · intro k v lvl rest hr hrest
      rw [dumpField_eq]
      rw [show (encodeStrL k ++ ':' :: ' ' :: dumpJ lvl v) ++ rest =
        '"' :: (k.data.flatMap escCharL ++ '"' :: (':' :: ' ' :: (dumpJ lvl v ++ rest)))
        by simp [encodeStrL]]
      rw [parseFieldJ_quote]
      rw [parseStringBody_encode]
      dsimp only
      rw [skipWs_cons_false _ (by decide)]
      split
      · rename_i r3 heq
        injection heq with _ he2
        subst he2
        rw [parseJ_space]
        rw [ihP v lvl rest (by omega) hrest]
      · rename_i hne
        exact absurd rfl (hne (' ' :: (dumpJ lvl v ++ rest)))
    · intro fs lvl lvl2 rest hs hrest
      cases fs with
      | nil =>
        rw [dumpFields_nil]
        rw [show ([] : List Char) ++ (nlIndent lvl2 ++ '\x7d' :: rest) =
          nlIndent lvl2 ++ ('\x7d' :: rest) by simp]
        rw [parseFieldsJ_skip _ _ ('\x7d' :: rest) (by rw [skipWs_nlIndent])]
        exact parseFieldsJ_end f rest
      | cons kv fs =>
        obtain ⟨k, v⟩ := kv
        simp only [jfuelF] at hs
        have hpv := jfuel_pos v
        rw [dumpFields_cons]
        rw [show (',' :: (nlIndent lvl ++ dumpField lvl k v ++ dumpFields lvl fs))
            ++ (nlIndent lvl2 ++ '\x7d' :: rest) =
          ',' :: (nlIndent lvl ++ (dumpField lvl k v ++ (dumpFields lvl fs
            ++ (nlIndent lvl2 ++ ('\x7d' :: rest))))) by simp]
        rw [parseFieldsJ_comma]
        rw [parseFieldJ_skip f _ (dumpField lvl k v ++ (dumpFields lvl fs
          ++ (nlIndent lvl2 ++ ('\x7d' :: rest)))) (by rw [skipWs_nlIndent])]
        rw [ihR k v lvl _ (by omega) (headNotDigit_fields _ _ _ _)]
        dsimp only
        rw [ihS fs lvl lvl2 rest (by omega) hrest]

mutual
theorem jfuel_le_dump : ∀ (v : JValue) (lvl : Nat), jfuel v ≤ (dumpJ lvl v).length + 1
  | .jnull, lvl => by simp [jfuel, dumpJ_null]
  | .jint i, lvl => by simp [jfuel]
  | .jstr s, lvl => by simp [jfuel]
  | .jarr [], lvl => by simp [jfuel, jfuelL, dumpJ_arr_nil]
  | .jarr (x :: xs), lvl => by
    have h1 := jfuel_le_dump x (lvl + 1)
    have h2 := jfuelL_le_items xs (lvl + 1)
    simp only [jfuel, jfuelL, dumpJ_arr_cons, List.length_cons, List.length_append,
      nlIndent, List.length_replicate]
    omega
  | .jobj [], lvl => by simp [jfuel, jfuelF, dumpJ_obj_nil]
  | .jobj ((k, v) :: fs), lvl => by
    have h1 := jfuel_le_dump v (lvl + 1)
    have h2 := jfuelF_le_fields fs (lvl + 1)
    simp only [jfuel, jfuelF, dumpJ_obj_cons, dumpField_eq, encodeStrL, List.length_cons,
      List.length_append, nlIndent, List.length_replicate]
    omega

theorem jfuelL_le_items : ∀ (vs : List JValue) (lvl : Nat),
    jfuelL vs ≤ (dumpItems lvl vs).length
  | [], lvl => by simp [jfuelL, dumpItems_nil]
  | x :: xs, lvl => by
    have h1 := jfuel_le_dump x lvl
    have h2 := jfuelL_le_items xs lvl
    simp only [jfuelL, dumpItems_cons, List.length_cons, List.length_append,
      nlIndent, List.length_replicate]
    omega

theorem jfuelF_le_fields : ∀ (fs : List (String × JValue)) (lvl : Nat),
    jfuelF fs ≤ (dumpFields lvl fs).length
  | [], lvl => by simp [jfuelF, dumpFields_nil]
  | (k, v) :: fs, lvl => by
    have h1 := jfuel_le_dump v lvl
    have h2 := jfuelF_le_fields fs lvl
    simp only [jfuelF, dumpFields_cons, dumpField_eq, encodeStrL, List.length_cons,
      List.length_append, nlIndent, List.length_replicate]
    omega
end

theorem decodeStrings_enc (au : List String) :
    decodeStrings (au.map JValue.jstr) = some au := by
  induction au with
  | nil => rfl
  | cons a as ih => simp [decodeStrings, strOfJ, ih]

theorem recordOfJson_enc (r : CitationRecord) : recordOfJson (jsonOfRecord r) = some r := by
  obtain ⟨t, au, p, y⟩ := r
  cases t <;> cases p <;> cases y <;>
    simp [recordOfJson, jsonOfRecord, jLookup, jOfOptStr, jOfOptInt, optStrOfJ, optIntOfJ,
      decodeStrings_enc]

theorem decodeRecords_enc (rs : List CitationRecord) :
    decodeRecords (rs.map jsonOfRecord) = some rs := by
  induction rs with
  | nil => rfl
  | cons r rs ih => simp [decodeRecords, recordOfJson_enc, ih]

/-- C9. Serializing any output sequence of records to the JSON text main()
    writes (indent 2, non-ASCII preserved, key order title, authors,
    proceedings, year) and deserializing that text yields a sequence of
    records equal field for field to the originals. -/
theorem C9_json_round_trip (rs : List CitationRecord) :
    loadCitations (dumps rs) = some rs := by
  unfold loadCitations loads dumps
  have hfuel : jfuel (.jarr (rs.map jsonOfRecord)) ≤
      (dumpJ 0 (.jarr (rs.map jsonOfRecord))).length + 1 := jfuel_le_dump _ 0
  have hparse := (parse_dump_all ((dumpJ 0 (.jarr (rs.map jsonOfRecord))).length + 1)).1
    (.jarr (rs.map jsonOfRecord)) 0 [] hfuel rfl
  rw [show dumpJ 0 (.jarr (rs.map jsonOfRecord)) ++ [] =
    dumpJ 0 (.jarr (rs.map jsonOfRecord)) by simp] at hparse
  rw [show (String.mk (dumpJ 0 (JValue.jarr (rs.map jsonOfRecord)))).data =
    dumpJ 0 (JValue.jarr (rs.map jsonOfRecord)) from rfl]
  rw [hparse]
  dsimp only
  rw [show skipWs ([] : List Char) = [] from rfl]
  simp only [if_pos]
  exact decodeRecords_enc rs
